import Mathlib

/-!
Shallow embedding of `kernel/run.py`, the build-deploy-run orchestrator of the
node-replicated-kernel repository, together with theorems settling the claims
about its specification.

The embedding follows the Python source:
* parsed command-line options become the `Args` structure;
* the `BESPIN_EXIT_CODES` dictionary and the exit-code translation in
  `run_qemu` become pure functions on `Nat`;
* `build_userspace` becomes a pure function computing the toolchain argument
  vectors (an exception raised while assembling the arguments is `none`);
* `deploy` becomes a function on a finite filesystem model (paths are lists of
  components, a file store is an association list; `shutil.copy2` of a missing
  source is `none`);
* the `__main__` pipeline becomes a function returning the trace of attempted
  stages and the final process exit code.
-/

namespace RunPy

/-- Options produced by the `argparse` parser of `run.py`.  Optional string /
int valued flags are `Option`s; Python truthiness of such values is modelled
by `pyTruthyS` / `pyTruthyI` below.  Parser defaults: `mods = ["init"]`,
`machine = "qemu"`, booleans `false`, lists `[]`, `cmd`/qemu options absent. -/
structure Args where
  verbose : Bool
  norun : Bool
  release : Bool
  kfeatures : List String
  ufeatures : List String
  mods : List String
  cmd : Option String
  machine : String
  qemu_settings : Option String
  qemu_nodes : Option Int
  qemu_cores : Option Int
  qemu_debug_cpu : Bool
  qemu_monitor : Bool
deriving DecidableEq, Repr

/-- Python truthiness of an optional string flag (absent or empty is falsy). -/
def pyTruthyS : Option String → Bool
  | none => false
  | some s => !(s == "")

/-- Python truthiness of an optional integer flag (absent or zero is falsy). -/
def pyTruthyI : Option Int → Bool
  | none => false
  | some n => !(n == 0)

/-- Python `str.format` of an optional value: `None` renders as `"None"`. -/
def pyFormatOpt : Option String → String
  | none => "None"
  | some s => s

/-- Model of the Python membership test `c in s` on a string. -/
def pyContains (s : String) (c : Char) : Bool := s.data.contains c

/-- Splitting of a character list at every position whose character satisfies
the predicate; the separators are consumed and empty groups are kept, as in
Python `str.split(sep)`. -/
def splitPredList (p : Char → Bool) : List Char → List (List Char)
  | [] => [[]]
  | x :: xs =>
      match splitPredList p xs with
      | [] => [[]]
      | g :: gs => if p x then [] :: g :: gs else (x :: g) :: gs

/-- Model of Python `s.split(":")`: split at every colon, keeping empty
parts. -/
def pySplitColon (s : String) : List String :=
  (splitPredList (fun x => x == ':') s.data).map String.mk

/-- Model of Python `s.split()` (no separator argument): split on whitespace
runs and drop the empty parts. -/
def pySplitWs (s : String) : List String :=
  ((splitPredList (fun c => c.isWhitespace) s.data).map String.mk).filter
    (fun t => !(t == ""))

/-- Model of Python `s.endswith(t)` (used for the `*.bin` glob): the reversed
character list of t leads the reversed character list of s. -/
def charLeads : List Char → List Char → Bool
  | [], _ => true
  | _ :: _, [] => false
  | a :: as, b :: bs => a == b && charLeads as bs

/-- String suffix test by character lists (kernel-reducible). -/
def strEndsWith (s t : String) : Bool := charLeads t.data.reverse s.data.reverse

/-- Source constant `ARCH = "x86_64"`. -/
def ARCH : String := "x86_64"

/-- Source constant `UEFI_TARGET` (the source formats it as `ARCH + "-uefi"`). -/
def UEFI_TARGET : String := "x86_64-uefi"

/-- Source constant `KERNEL_TARGET` (formatted as `ARCH + "-bespin"`). -/
def KERNEL_TARGET : String := "x86_64-bespin"

/-- Source constant `USER_TARGET` (formatted as `ARCH + "-bespin-none"`). -/
def USER_TARGET : String := "x86_64-bespin-none"

/-- The `BESPIN_EXIT_CODES` dictionary of `run.py`, as a lookup function. -/
def BESPIN_EXIT_CODES (n : Nat) : Option String :=
  if n = 0 then some "[SUCCESS]"
  else if n = 1 then some "[FAIL] ReturnFromMain: main() function returned to arch_indepdendent part."
  else if n = 2 then some "[FAIL] Encountered kernel panic."
  else if n = 3 then some "[FAIL] Encountered OOM."
  else if n = 4 then some "[FAIL] Encountered unexpected Interrupt."
  else if n = 5 then some "[FAIL] General Protection Fault."
  else if n = 6 then some "[FAIL] Unexpected Page Fault."
  else if n = 7 then some "[FAIL] Unexpected process exit code when running a user-space test."
  else if n = 8 then some "[FAIL] Unexpected exception during kernel initialization."
  else if n = 9 then some "[FAIL] Got unrecoverable error (machine check, double fault)."
  else none

/-- Shift of `run_qemu`: `bespin_exit_code = execution.returncode >> 1`. -/
def bespin_exit_code (returncode : Nat) : Nat := returncode >>> 1

/-- The diagnostic line printed by `run_qemu` for a raw emulator exit status:
the table entry when the shifted code is known, otherwise the
update-the-script notice (embedding of the `print` branch at run.py:268-272). -/
def exit_line (returncode : Nat) : String :=
  match BESPIN_EXIT_CODES (bespin_exit_code returncode) with
  | some msg => msg
  | none =>
      "[FAIL] Kernel exited with unknown error status " ++
        toString (bespin_exit_code returncode) ++ "... Update the script!"

/-- The spec's `ExitOutcome` enumeration naming the rows of the exit table. -/
inductive ExitOutcome where
  | Success
  | ReturnFromMain
  | Panic
  | OutOfMemory
  | UnexpectedInterrupt
  | GeneralProtectionFault
  | PageFault
  | UnexpectedTestExitCode
  | InitException
  | UnrecoverableError
  | Unknown (code : Nat)
deriving DecidableEq, Repr

/-- Translation of a shifted exit code to the named outcome corresponding to
its `BESPIN_EXIT_CODES` row; codes outside the table are `Unknown`. -/
def outcomeOfCode (n : Nat) : ExitOutcome :=
  if n = 0 then .Success
  else if n = 1 then .ReturnFromMain
  else if n = 2 then .Panic
  else if n = 3 then .OutOfMemory
  else if n = 4 then .UnexpectedInterrupt
  else if n = 5 then .GeneralProtectionFault
  else if n = 6 then .PageFault
  else if n = 7 then .UnexpectedTestExitCode
  else if n = 8 then .InitException
  else if n = 9 then .UnrecoverableError
  else .Unknown n

/-- The full exit-code translation of `run_qemu`: raw process status to
structured outcome, via the right-shift by one bit and the table lookup. -/
def exitOutcome (returncode : Nat) : ExitOutcome :=
  outcomeOfCode (bespin_exit_code returncode)

theorem BESPIN_EXIT_CODES_none {n : Nat} (h : 9 < n) : BESPIN_EXIT_CODES n = none := by
  unfold BESPIN_EXIT_CODES
  split_ifs <;> first | rfl | omega

theorem outcomeOfCode_unknown {n : Nat} (h : 9 < n) : outcomeOfCode n = .Unknown n := by
  unfold outcomeOfCode
  split_ifs <;> first | rfl | omega

/-- C1: exit-code translation is a pure total function of the raw emulator
exit status: the raw status is shifted right by one bit and looked up in the
fixed table, so raw status 0 yields Success, raw status 4 yields Panic, raw
status 19 yields UnrecoverableError, and any raw status whose shifted value
lies outside 0..9 yields Unknown(shifted value) together with the
update-the-script diagnostic line. -/
theorem c1_exit_code_translation :
    exitOutcome 0 = .Success ∧ exitOutcome 4 = .Panic ∧
    exitOutcome 19 = .UnrecoverableError ∧
    ∀ raw : Nat, 9 < raw >>> 1 →
      exitOutcome raw = .Unknown (raw >>> 1) ∧
      exit_line raw =
        "[FAIL] Kernel exited with unknown error status " ++
          toString (raw >>> 1) ++ "... Update the script!" := by
  refine ⟨by decide, by decide, by decide, ?_⟩
  intro raw h
  have hb : bespin_exit_code raw = raw >>> 1 := rfl
  constructor
  · show outcomeOfCode (bespin_exit_code raw) = .Unknown (raw >>> 1)
    rw [hb, outcomeOfCode_unknown h]
  · show exit_line raw = _
    unfold exit_line
    rw [hb, BESPIN_EXIT_CODES_none h]

/-- Closed instance of the hypothesised part of `c1_exit_code_translation`,
at raw status 84 (shifted value 42). -/
theorem c1_exit_code_translation_witness :
    exitOutcome 84 = .Unknown 42 ∧
    exit_line 84 =
      "[FAIL] Kernel exited with unknown error status 42... Update the script!" :=
  c1_exit_code_translation.2.2.2 84 (by decide)

/-- C9: the translation is non-injective in a specific way: for every even raw
status r, statuses r and r+1 produce the same shifted code, hence the same
outcome and the same diagnostic line; in particular raw emulator status 1 (a
generic process failure) is reported as Success. -/
theorem c9_even_odd_collapse :
    (∀ r : Nat, r % 2 = 0 →
      bespin_exit_code r = bespin_exit_code (r + 1) ∧
      exitOutcome r = exitOutcome (r + 1) ∧
      exit_line r = exit_line (r + 1)) ∧
    exitOutcome 1 = .Success := by
  refine ⟨?_, by decide⟩
  intro r hr
  have h : bespin_exit_code r = bespin_exit_code (r + 1) := by
    unfold bespin_exit_code
    rw [Nat.shiftRight_one, Nat.shiftRight_one]
    omega
  refine ⟨h, ?_, ?_⟩
  · unfold exitOutcome; rw [h]
  · unfold exit_line; rw [h]

/-- Closed instance of `c9_even_odd_collapse` at the even raw status 6. -/
theorem c9_even_odd_collapse_witness :
    bespin_exit_code 6 = bespin_exit_code 7 ∧
    exitOutcome 6 = exitOutcome 7 ∧ exit_line 6 = exit_line 7 :=
  c9_even_odd_collapse.1 6 (by decide)

/-- Stages of the `__main__` pipeline of `run.py`, in source order. -/
inductive Stage where
  | buildBootloader
  | buildKernel
  | buildUserLibraries
  | buildUserspace
  | deployStage
  | runStage
deriving DecidableEq, Repr

/-- The QEMU-specific-flag test of the `__main__` guard (run.py:295), with
Python truthiness of the optional flags:
`args.qemu_debug_cpu or args.qemu_settings or args.qemu_monitor or
args.qemu_cores or args.qemu_nodes`. -/
def qemuFlagGiven (a : Args) : Bool :=
  a.qemu_debug_cpu || pyTruthyS a.qemu_settings || a.qemu_monitor ||
    pyTruthyI a.qemu_cores || pyTruthyI a.qemu_nodes

/-- The `run` function of `run.py`: on the qemu machine it returns the shifted
emulator exit status (the emulator's raw exit status is the parameter
`emulatorRet`); any other machine logs an unsupported notice and returns 99. -/
def run (a : Args) (emulatorRet : Nat) : Nat :=
  if a.machine = "qemu" then bespin_exit_code emulatorRet else 99

/-- The `__main__` pipeline of `run.py`, modelled as the list of stages whose
execution is attempted together with the final process exit code.  External
toolchain invocations and filesystem operations are taken to succeed (their
failure aborts the pipeline and is irrelevant to the claims about this
model); a script that falls off the end exits with status 0. -/
def main_pipeline (a : Args) (emulatorRet : Nat) : List Stage × Nat :=
  if a.machine ≠ "qemu" ∧ qemuFlagGiven a then ([], 99)
  else if a.norun then
    ([.buildBootloader, .buildKernel, .buildUserLibraries, .buildUserspace,
      .deployStage], 0)
  else
    ([.buildBootloader, .buildKernel, .buildUserLibraries, .buildUserspace,
      .deployStage, .runStage], run a emulatorRet)

/-- An argument record with the parser's default values everywhere. -/
def defaultArgs : Args :=
  { verbose := false, norun := false, release := false, kfeatures := [],
    ufeatures := [], mods := ["init"], cmd := none, machine := "qemu",
    qemu_settings := none, qemu_nodes := none, qemu_cores := none,
    qemu_debug_cpu := false, qemu_monitor := false }

/-- C2 counterexample: requesting the unsupported machine target "baremetal"
with no QEMU-specific flag yields exit code 99, but only after every build
stage and the deploy stage have executed, contradicting the claim that 99 is
returned before any build stage executes in both rejection cases. -/
theorem c2_counterexample :
    main_pipeline { defaultArgs with machine := "baremetal" } 0 =
      ([.buildBootloader, .buildKernel, .buildUserLibraries, .buildUserspace,
        .deployStage, .runStage], 99) ∧
    Stage.buildBootloader ∈
      (main_pipeline { defaultArgs with machine := "baremetal" } 0).1 := by
  constructor <;> decide

/-- C2 (amended): a non-default machine target together with any QEMU-specific
flag is rejected with exit code 99 before any build stage executes; an
unsupported machine target without QEMU-specific flags also yields exit code
99, but only after all build stages and the deploy stage have executed. -/
theorem c2_exit_99 (a : Args) (emulatorRet : Nat) (h : a.machine ≠ "qemu") :
    (qemuFlagGiven a = true → main_pipeline a emulatorRet = ([], 99)) ∧
    (qemuFlagGiven a = false → a.norun = false →
      main_pipeline a emulatorRet =
        ([.buildBootloader, .buildKernel, .buildUserLibraries,
          .buildUserspace, .deployStage, .runStage], 99)) := by
  constructor
  · intro hq
    unfold main_pipeline
    rw [if_pos ⟨h, hq⟩]
  · intro hq hn
    unfold main_pipeline
    rw [if_neg (by simp [hq]), if_neg (by simp [hn])]
    unfold run
    rw [if_neg h]

/-- Closed instance of `c2_exit_99`: both rejection shapes at concrete
argument records. -/
theorem c2_exit_99_witness :
    main_pipeline { defaultArgs with machine := "baremetal", qemu_monitor := true } 0 = ([], 99) ∧
    main_pipeline { defaultArgs with machine := "baremetal" } 0 =
      ([.buildBootloader, .buildKernel, .buildUserLibraries, .buildUserspace,
        .deployStage, .runStage], 99) :=
  ⟨(c2_exit_99 { defaultArgs with machine := "baremetal", qemu_monitor := true } 0
      (by decide)).1 (by decide),
   (c2_exit_99 { defaultArgs with machine := "baremetal" } 0 (by decide)).2
      (by decide) (by decide)⟩

/-- The `CARGO_DEFAULT_ARGS` list as seen by the build stages: the initial
value `["--color", "always"]` with `"--release"` and `"--verbose"` appended by
`__main__` according to the parsed flags. -/
def CARGO_DEFAULT_ARGS (a : Args) : List String :=
  ["--color", "always"] ++ (if a.release then ["--release"] else []) ++
    (if a.verbose then ["--verbose"] else [])

/-- The `build_args_default` list of `build_userspace`. -/
def build_args_default (a : Args) : List String :=
  ["build", "--target", USER_TARGET] ++ CARGO_DEFAULT_ARGS a

/-- The arguments one ufeatures token adds to a module's build invocation
(loop body at run.py:146-152): a token containing a colon is split on every
colon and unpacked into two parts (three or more parts raise an unhandled
`ValueError`, modelled as `none`); a matching `module:feature` token adds
`--features feature`, a non-matching one adds nothing, and a bare token adds
`--features token`. -/
def featureArgsFor (module feature : String) : Option (List String) :=
  if pyContains feature ':' then
    match pySplitColon feature with
    | [mod_part, feature_part] =>
        some (if module = mod_part then ["--features", feature_part] else [])
    | _ => none
  else some ["--features", feature]

/-- The feature names (without the `--features` markers) one token contributes
to a module's build; `none` again models the unhandled `ValueError`. -/
def tokenContrib (module feature : String) : Option (List String) :=
  if pyContains feature ':' then
    match pySplitColon feature with
    | [mod_part, feature_part] =>
        some (if module = mod_part then [feature_part] else [])
    | _ => none
  else some [feature]

/-- The complete argument vector of one user-module build invocation:
`build_args_default` followed by the per-token feature arguments, folded in
token order; `none` models the unhandled exception. -/
def module_build_args (a : Args) (module : String) : Option (List String) :=
  a.ufeatures.foldl
    (fun acc feature => acc.bind (fun ba => (featureArgsFor module feature).map (ba ++ ·)))
    (some (build_args_default a))

/-- One iteration of the module loop of `build_userspace`: a module whose
source directory is absent (`dirExists` models
`(USR_PATH / module).exists()`) is skipped with a logged notice, otherwise
one toolchain invocation `(module, argument vector)` is recorded; `none`
models the unhandled exception raised while assembling a feature list. -/
def buStep (a : Args) (dirExists : String → Bool)
    (acc : Option (List (String × List String))) (module : String) :
    Option (List (String × List String)) :=
  acc.bind (fun invs =>
    if dirExists module then
      (module_build_args a module).map (fun ba => invs ++ [(module, ba)])
    else some invs)

/-- The `build_userspace` function: the module loop folded over the selected
module list, collecting the toolchain invocations in order. -/
def build_userspace (a : Args) (dirExists : String → Bool) :
    Option (List (String × List String)) :=
  a.mods.foldl (buStep a dirExists) (some [])

/-- Interleaving of a feature-name list with `--features` markers. -/
def pairsOf : List String → List String
  | [] => []
  | f :: fs => "--features" :: f :: pairsOf fs

/-- The feature values of an argument vector: every element directly preceded
by a `--features` marker. -/
def featuresIn : List String → List String
  | [] => []
  | [_] => []
  | x :: y :: rest =>
      if x = "--features" then y :: featuresIn rest else featuresIn (y :: rest)

/-- Concatenation of the per-token feature names over a token list, in token
order; `none` models the unhandled exception. -/
def contribs (module : String) : List String → Option (List String)
  | [] => some []
  | f :: fs =>
      (tokenContrib module f).bind (fun c => (contribs module fs).map (fun cs => c ++ cs))

theorem pairsOf_append (xs ys : List String) :
    pairsOf (xs ++ ys) = pairsOf xs ++ pairsOf ys := by
  induction xs with
  | nil => rfl
  | cons x xs ih => simp [pairsOf, ih]

theorem featuresIn_pairsOf (fs : List String) : featuresIn (pairsOf fs) = fs := by
  induction fs with
  | nil => rfl
  | cons f fs ih => simp [pairsOf, featuresIn, ih]

theorem featuresIn_skip {x : String} (l : List String) (h : x ≠ "--features") :
    featuresIn (x :: l) = featuresIn l := by
  cases l with
  | nil => rfl
  | cons y rest => simp [featuresIn, h]

theorem featuresIn_build_args_default (a : Args) (l : List String) :
    featuresIn (build_args_default a ++ l) = featuresIn l := by
  cases hr : a.release <;> cases hv : a.verbose <;>
    simp [build_args_default, CARGO_DEFAULT_ARGS, USER_TARGET, hr, hv,
      featuresIn_skip]

theorem featureArgsFor_eq (module f : String) :
    featureArgsFor module f = (tokenContrib module f).map pairsOf := by
  unfold featureArgsFor tokenContrib
  by_cases hc : pyContains f ':'
  · rw [if_pos hc, if_pos hc]
    rcases hs : pySplitColon f with _ | ⟨mp, _ | ⟨fp, _ | _⟩⟩ <;>
      simp [pairsOf]
    by_cases hm : module = mp <;> simp [hm, pairsOf]
  · rw [if_neg hc, if_neg hc]
    simp [pairsOf]

theorem module_build_args_foldl_none (module : String) (fs : List String) :
    fs.foldl
      (fun acc feature => acc.bind (fun ba => (featureArgsFor module feature).map (ba ++ ·)))
      none = none := by
  induction fs with
  | nil => rfl
  | cons f fs ih => simpa using ih

theorem module_build_args_char (a : Args) (module : String) :
    module_build_args a module =
      (contribs module a.ufeatures).map (fun cs => build_args_default a ++ pairsOf cs) := by
  unfold module_build_args
  suffices h : ∀ (fs : List String) (init : List String),
      fs.foldl
        (fun acc feature => acc.bind (fun ba => (featureArgsFor module feature).map (ba ++ ·)))
        (some init) =
      (contribs module fs).map (fun cs => init ++ pairsOf cs) by
    exact h a.ufeatures (build_args_default a)
  intro fs
  induction fs with
  | nil => intro init; simp [contribs, pairsOf]
  | cons f fs ih =>
      intro init
      rw [List.foldl_cons]
      rcases ht : tokenContrib module f with _ | c
      · rw [show (some init).bind (fun ba => (featureArgsFor module f).map (ba ++ ·)) = none by
          simp [featureArgsFor_eq, ht]]
        rw [module_build_args_foldl_none]
        simp [contribs, ht]
      · rw [show (some init).bind (fun ba => (featureArgsFor module f).map (ba ++ ·))
              = some (init ++ pairsOf c) by simp [featureArgsFor_eq, ht]]
        rw [ih]
        rcases hcs : contribs module fs with _ | cs <;>
          simp [contribs, ht, hcs, pairsOf_append]

theorem tokenContrib_count {module t f : String} {c : List String}
    (ht : pyContains t ':' = false)
    (hne : pySplitColon f ≠ [module, t])
    (h : tokenContrib module f = some c) :
    c.count t = if f = t then 1 else 0 := by
  unfold tokenContrib at h
  cases hc : pyContains f ':'
  · rw [hc] at h
    simp only [Bool.false_eq_true, if_false] at h
    obtain rfl : [f] = c := Option.some.inj h
    by_cases hft : f = t
    · subst hft; simp [List.count_cons]
    · simp [List.count_cons, hft]
  · rw [hc] at h
    simp only [if_true] at h
    have hft : f ≠ t := by
      intro he; rw [he] at hc; rw [hc] at ht; cases ht
    rw [if_neg hft]
    rcases hs : pySplitColon f with _ | ⟨mp, _ | ⟨fp, _ | ⟨z, zs⟩⟩⟩
    · rw [hs] at h; cases h
    · rw [hs] at h; cases h
    · rw [hs] at h
      have h' : some (if module = mp then [fp] else []) = some c := h
      by_cases hm : module = mp
      · rw [if_pos hm] at h'
        obtain rfl : [fp] = c := Option.some.inj h'
        have hfp : fp ≠ t := by
          intro he; exact hne (by rw [hs, hm, he])
        simp [List.count_cons, hfp]
      · rw [if_neg hm] at h'
        obtain rfl : ([] : List String) = c := Option.some.inj h'
        simp
    · rw [hs] at h; cases h

theorem contribs_count {module t : String} (ht : pyContains t ':' = false) :
    ∀ (fs cs : List String), contribs module fs = some cs →
      (∀ u ∈ fs, pySplitColon u ≠ [module, t]) →
      cs.count t = fs.count t := by
  intro fs
  induction fs with
  | nil =>
      intro cs h _
      obtain rfl : ([] : List String) = cs := Option.some.inj h
      rfl
  | cons f fs ih =>
      intro cs h hne
      have hdef : contribs module (f :: fs) =
          (tokenContrib module f).bind (fun c => (contribs module fs).map (fun cs => c ++ cs)) := rfl
      rw [hdef] at h
      rcases htc : tokenContrib module f with _ | c <;> rw [htc] at h
      · cases h
      · rcases hcs : contribs module fs with _ | cs' <;> rw [hcs] at h
        · cases h
        · obtain rfl : c ++ cs' = cs := Option.some.inj h
          rw [List.count_append,
            tokenContrib_count ht (hne f (List.mem_cons_self f fs)) htc,
            ih cs' hcs (fun u hu => hne u (List.mem_cons_of_mem f hu)),
            List.count_cons]
          by_cases hft : f = t <;> simp [hft, Nat.add_comm]

theorem bu_foldl_none (a : Args) (de : String → Bool) :
    ∀ mods : List String, mods.foldl (buStep a de) none = none := by
  intro mods
  induction mods with
  | nil => rfl
  | cons m mods ih => simpa [buStep] using ih

theorem bu_mono (a : Args) (de : String → Bool) :
    ∀ (mods : List String) (acc invs : List (String × List String)),
      mods.foldl (buStep a de) (some acc) = some invs →
      ∀ e ∈ acc, e ∈ invs := by
  intro mods
  induction mods with
  | nil =>
      intro acc invs h e he
      obtain rfl : acc = invs := Option.some.inj h
      exact he
  | cons m mods ih =>
      intro acc invs h e he
      rw [List.foldl_cons] at h
      by_cases hd : de m
      · rcases hba : module_build_args a m with _ | ba
        · rw [show buStep a de (some acc) m = none by simp [buStep, hd, hba],
            bu_foldl_none] at h
          cases h
        · rw [show buStep a de (some acc) m = some (acc ++ [(m, ba)]) by
            simp [buStep, hd, hba]] at h
          exact ih _ invs h e (List.mem_append_left _ he)
      · rw [show buStep a de (some acc) m = some acc by simp [buStep, hd]] at h
        exact ih _ invs h e he

theorem bu_mem (a : Args) (de : String → Bool) (module : String) :
    ∀ (mods : List String) (acc invs : List (String × List String)),
      mods.foldl (buStep a de) (some acc) = some invs →
      module ∈ mods → de module = true →
      ∃ ba, module_build_args a module = some ba ∧ (module, ba) ∈ invs := by
  intro mods
  induction mods with
  | nil => intro _ _ _ hm; cases hm
  | cons m mods ih =>
      intro acc invs h hm hd
      rw [List.foldl_cons] at h
      rcases List.mem_cons.mp hm with rfl | hm'
      · rcases hba : module_build_args a module with _ | ba
        · rw [show buStep a de (some acc) module = none by simp [buStep, hd, hba],
            bu_foldl_none] at h
          cases h
        · rw [show buStep a de (some acc) module = some (acc ++ [(module, ba)]) by
            simp [buStep, hd, hba]] at h
          exact ⟨ba, rfl,
            bu_mono a de mods _ invs h (module, ba)
              (List.mem_append_right _ (List.mem_singleton.mpr rfl))⟩
      · rcases hs : buStep a de (some acc) m with _ | acc'
        · rw [hs, bu_foldl_none] at h; cases h
        · rw [hs] at h
          exact ih acc' invs h hm' hd

/-- C4: a bare (colon-free) ufeatures token is passed as a `--features`
argument to every selected module's build invocation, exactly once when the
token occurs once in the feature list and no `module:token` duplicate targets
the module. -/
theorem c4_bare_feature_every_module (a : Args) (dirExists : String → Bool)
    (invs : List (String × List String)) (module t : String)
    (ba : List String)
    (hb : build_userspace a dirExists = some invs)
    (hm : module ∈ a.mods) (hd : dirExists module = true)
    (hba : module_build_args a module = some ba)
    (ht : pyContains t ':' = false)
    (hcount : a.ufeatures.count t = 1)
    (hnd : ∀ u ∈ a.ufeatures, pySplitColon u ≠ [module, t]) :
    (module, ba) ∈ invs ∧ (featuresIn ba).count t = 1 := by
  obtain ⟨ba', hba', hmem⟩ := bu_mem a dirExists module a.mods [] invs hb hm hd
  obtain rfl : ba = ba' := by rw [hba] at hba'; exact Option.some.inj hba'
  refine ⟨hmem, ?_⟩
  rw [module_build_args_char] at hba
  rcases hcs : contribs module a.ufeatures with _ | cs <;> rw [hcs] at hba
  · cases hba
  · obtain rfl : build_args_default a ++ pairsOf cs = ba := Option.some.inj hba
    rw [featuresIn_build_args_default, featuresIn_pairsOf,
      contribs_count ht a.ufeatures cs hcs hnd, hcount]

/-- Closed instance of `c4_bare_feature_every_module`: feature list
`["log"]`, module list `["init"]`, every source directory present. -/
theorem c4_bare_feature_every_module_witness :
    ("init", ["build", "--target", "x86_64-bespin-none", "--color", "always",
        "--features", "log"]) ∈
      [(("init" : String), ["build", "--target", "x86_64-bespin-none",
        "--color", "always", "--features", "log"])] ∧
    (featuresIn ["build", "--target", "x86_64-bespin-none", "--color",
        "always", "--features", "log"]).count "log" = 1 :=
  c4_bare_feature_every_module
    { defaultArgs with ufeatures := ["log"] } (fun _ => true)
    [("init", ["build", "--target", "x86_64-bespin-none", "--color", "always",
      "--features", "log"])]
    "init" "log"
    ["build", "--target", "x86_64-bespin-none", "--color", "always",
      "--features", "log"]
    (by decide) (by decide) (by decide) (by decide) (by decide) (by decide)
    (by decide)

theorem tokenContrib_scoped_other {module t m feat : String}
    (hc : pyContains t ':' = true) (hs : pySplitColon t = [m, feat])
    (hmm : module ≠ m) : tokenContrib module t = some [] := by
  unfold tokenContrib
  rw [hc, if_pos rfl, hs]
  simp [hmm]

theorem contribs_filter {module t m feat : String}
    (hc : pyContains t ':' = true) (hs : pySplitColon t = [m, feat])
    (hmm : module ≠ m) :
    ∀ fs : List String,
      contribs module (fs.filter (fun u => !(u == t))) = contribs module fs := by
  intro fs
  induction fs with
  | nil => rfl
  | cons f fs ih =>
      by_cases hf : f = t
      · subst hf
        rw [show (f :: fs).filter (fun u => !(u == f)) = fs.filter (fun u => !(u == f)) by
          simp [List.filter]]
        rw [ih]
        have hdef : contribs module (f :: fs) =
            (tokenContrib module f).bind
              (fun c => (contribs module fs).map (fun cs => c ++ cs)) := rfl
        rw [hdef, tokenContrib_scoped_other hc hs hmm]
        rcases hcs : contribs module fs with _ | cs <;> simp [hcs]
      · rw [show (f :: fs).filter (fun u => !(u == t)) = f :: fs.filter (fun u => !(u == t)) by
          simp [List.filter_cons, hf]]
        have hdef1 : contribs module (f :: fs.filter (fun u => !(u == t))) =
            (tokenContrib module f).bind
              (fun c => (contribs module (fs.filter (fun u => !(u == t)))).map
                (fun cs => c ++ cs)) := rfl
        have hdef2 : contribs module (f :: fs) =
            (tokenContrib module f).bind
              (fun c => (contribs module fs).map (fun cs => c ++ cs)) := rfl
        rw [hdef1, hdef2, ih]

theorem bu_foldl_congr (a a' : Args) (de : String → Bool) :
    ∀ (mods : List String) (acc : Option (List (String × List String))),
      (∀ mod ∈ mods, module_build_args a mod = module_build_args a' mod) →
      mods.foldl (buStep a de) acc = mods.foldl (buStep a' de) acc := by
  intro mods
  induction mods with
  | nil => intro acc _; rfl
  | cons m mods ih =>
      intro acc h
      rw [List.foldl_cons, List.foldl_cons,
        show buStep a de acc m = buStep a' de acc m by
          unfold buStep; rw [h m (List.mem_cons_self m mods)]]
      exact ih _ (fun mod hmod => h mod (List.mem_cons_of_mem m hmod))

/-- C3: a `module:feature` token whose module part is not in the selected
module list changes nothing: `build_userspace` computes the same invocations
(and fails in the same cases) as it does with every occurrence of the token
removed from the feature list, so no build invocation receives the feature
and no error is raised for the unmatched token. -/
theorem c3_unmatched_scoped_token_ignored (a : Args) (dirExists : String → Bool)
    (t m feat : String)
    (hc : pyContains t ':' = true)
    (hs : pySplitColon t = [m, feat])
    (hm : m ∉ a.mods) :
    build_userspace a dirExists =
      build_userspace { a with ufeatures := a.ufeatures.filter (fun u => !(u == t)) }
        dirExists := by
  unfold build_userspace
  apply bu_foldl_congr
  intro mod hmod
  have hne : mod ≠ m := fun he => hm (he ▸ hmod)
  rw [module_build_args_char, module_build_args_char]
  have h1 : ({ a with ufeatures := a.ufeatures.filter (fun u => !(u == t)) } : Args).ufeatures
      = a.ufeatures.filter (fun u => !(u == t)) := rfl
  have h2 : build_args_default { a with ufeatures := a.ufeatures.filter (fun u => !(u == t)) }
      = build_args_default a := rfl
  rw [h1, h2, contribs_filter hc hs hne]

/-- Closed instance of `c3_unmatched_scoped_token_ignored`: the token
`"other:feat"` targets a module outside the selected list `["init"]`. -/
theorem c3_unmatched_scoped_token_ignored_witness :
    build_userspace { defaultArgs with ufeatures := ["other:feat", "log"] }
        (fun _ => true) =
      build_userspace
        { defaultArgs with
            ufeatures := (["other:feat", "log"] : List String).filter
              (fun u => !(u == "other:feat")) }
        (fun _ => true) :=
  c3_unmatched_scoped_token_ignored
    { defaultArgs with ufeatures := ["other:feat", "log"] } (fun _ => true)
    "other:feat" "other" "feat" (by decide) (by decide) (by decide)

theorem tokenContrib_multi_colon {t : String}
    (hc : pyContains t ':' = true) (hlen : 3 ≤ (pySplitColon t).length) :
    ∀ module, tokenContrib module t = none := by
  intro module
  unfold tokenContrib
  rw [hc, if_pos rfl]
  rcases hs : pySplitColon t with _ | ⟨x, _ | ⟨y, _ | ⟨z, zs⟩⟩⟩
  all_goals first
    | rfl
    | (rw [hs] at hlen; simp at hlen)

theorem contribs_none_of_mem {module t : String}
    (hnone : tokenContrib module t = none) :
    ∀ fs : List String, t ∈ fs → contribs module fs = none := by
  intro fs
  induction fs with
  | nil => intro h; cases h
  | cons f fs ih =>
      intro h
      have hdef : contribs module (f :: fs) =
          (tokenContrib module f).bind
            (fun c => (contribs module fs).map (fun cs => c ++ cs)) := rfl
      rw [hdef]
      rcases List.mem_cons.mp h with rfl | hmem
      · rw [hnone]; rfl
      · rw [ih hmem]
        rcases tokenContrib module f with _ | c <;> rfl

theorem bu_abort (a : Args) (de : String → Bool)
    (hall : ∀ module, module_build_args a module = none) :
    ∀ (mods : List String) (acc : List (String × List String)),
      (∃ mod ∈ mods, de mod = true) →
      mods.foldl (buStep a de) (some acc) = none := by
  intro mods
  induction mods with
  | nil => intro _ h; obtain ⟨_, hm, _⟩ := h; cases hm
  | cons m mods ih =>
      intro acc h
      rw [List.foldl_cons]
      by_cases hd : de m
      · rw [show buStep a de (some acc) m = none by simp [buStep, hd, hall m]]
        exact bu_foldl_none a de mods
      · rw [show buStep a de (some acc) m = some acc by simp [buStep, hd]]
        obtain ⟨mod, hmod, hde⟩ := h
        rcases List.mem_cons.mp hmod with rfl | hmem
        · exact absurd hde hd
        · exact ih acc ⟨mod, hmem, hde⟩

/-- C10: a ufeatures token with two or more colons splits into three or more
parts, so the two-way unpacking raises an unhandled exception as soon as one
selected module's source directory exists: the user-space build aborts with
`none` rather than a logged notice. -/
theorem c10_multi_colon_aborts (a : Args) (dirExists : String → Bool)
    (t : String) (m : String)
    (htu : t ∈ a.ufeatures)
    (hc : pyContains t ':' = true)
    (hlen : 3 ≤ (pySplitColon t).length)
    (hm : m ∈ a.mods) (hd : dirExists m = true) :
    build_userspace a dirExists = none := by
  unfold build_userspace
  refine bu_abort a dirExists ?_ a.mods [] ⟨m, hm, hd⟩
  intro module
  rw [module_build_args_char,
    contribs_none_of_mem (tokenContrib_multi_colon hc hlen module) a.ufeatures htu]
  rfl

/-- Closed instance of `c10_multi_colon_aborts`: token `"a:b:c"` with the
default module list and every source directory present. -/
theorem c10_multi_colon_aborts_witness :
    build_userspace { defaultArgs with ufeatures := ["a:b:c"] } (fun _ => true) = none :=
  c10_multi_colon_aborts { defaultArgs with ufeatures := ["a:b:c"] }
    (fun _ => true) "a:b:c" "init" (by decide) (by decide) (by decide)
    (by decide) (by decide)

/-- A filesystem path: a list of name components, rooted at the repository
root for the `target` tree and at the distinguished component `cwd` for the
invoking working directory (the two never overlap in `run.py`). -/
abbrev Path := List String

/-- A filesystem: an association list from paths to file contents, queried by
first match, so pushing an entry overwrites for lookup purposes.  Directories
are not modelled; `mkdir` is the identity here. -/
abbrev FS := List (Path × String)

/-- Lookup of a file's content. -/
def fsGet : FS → Path → Option String
  | [], _ => none
  | e :: fs, p => if e.1 = p then some e.2 else fsGet fs p

/-- Writing a file (`shutil.copy2` target / `open(...,'w')`): push an entry
that shadows any previous one at the same path. -/
def fsPut (fs : FS) (p : Path) (c : String) : FS := (p, c) :: fs

/-- Whether the directory path d is a path prefix of p. -/
def isUnder : Path → Path → Bool
  | [], _ => true
  | _ :: _, [] => false
  | d :: ds, x :: xs => d == x && isUnder ds xs

/-- Recursive removal of the subtree rooted at d (`shutil.rmtree`); on the
file level an absent tree makes this a no-op, matching the guarded call in
`deploy`. -/
def fsRemoveUnder (fs : FS) (d : Path) : FS :=
  fs.filter (fun e => !(isUnder d e.1))

/-- The source constant `'release' if args.release else 'debug'`. -/
def debug_release (release : Bool) : String := if release then "release" else "debug"

/-- `TARGET_PATH / UEFI_TARGET / debug_release`. -/
def uefi_build_path (r : Bool) : Path := ["target", UEFI_TARGET, debug_release r]

/-- `TARGET_PATH / USER_TARGET / debug_release`. -/
def user_build_path (r : Bool) : Path := ["target", USER_TARGET, debug_release r]

/-- `TARGET_PATH / KERNEL_TARGET / debug_release`. -/
def kernel_build_path (r : Bool) : Path := ["target", KERNEL_TARGET, debug_release r]

/-- The ESP staging directory `uefi_build_path / 'esp'`. -/
def esp_path (r : Bool) : Path := uefi_build_path r ++ ["esp"]

/-- The invoking working directory (`os.getcwd()`), disjoint from the target
tree. -/
def cwd_path : Path := ["cwd"]

/-- The name a directory entry contributes to the `*.bin` glob over the
user-space build directory: defined when the path is a direct child of that
directory and its name ends in `.bin`. -/
def binName (user : Path) (p : Path) : Option String :=
  if p.take user.length = user then
    match p.drop user.length with
    | [n] => if strEndsWith n ".bin" then some n else none
    | _ => none
  else none

/-- The names matched by `user_build_path.glob("*.bin")` in the file store. -/
def binNames (fs : FS) (user : Path) : List String :=
  fs.filterMap (fun e => binName user e.1)

/-- The loop copying every globbed `.bin` binary to the ESP root
(run.py:198-201). -/
def copyBins (r : Bool) (ns : List String) (fs : FS) : FS :=
  ns.foldl
    (fun fs n =>
      match fsGet fs (user_build_path r ++ [n]) with
      | some c => fsPut fs (esp_path r ++ [n]) c
      | none => fs)
    fs

/-- One iteration of the user-module deployment loop (run.py:190-201): a
module without a file in the user build directory is skipped; an ordinary
module's binary is copied to the ESP root under its own name; the `rkapps`
module instead fans out every `*.bin` file of the user build directory. -/
def copyModule (a : Args) (fs : FS) (module : String) : FS :=
  match fsGet fs (user_build_path a.release ++ [module]) with
  | none => fs
  | some c =>
      if module ≠ "rkapps" then fsPut fs (esp_path a.release ++ [module]) c
      else copyBins a.release (binNames fs (user_build_path a.release)) fs

/-- The user-module deployment loop folded over the selected module list. -/
def copyMods (a : Args) (fs : FS) : FS := a.mods.foldl (copyModule a) fs

/-- The fixed part of `deploy` (run.py:170-187): reset the ESP subtree, copy
the kernel binary to the working directory and to `esp/kernel`, copy the
bootloader to `esp/EFI/Boot/BootX64.efi`, and write `esp/cmdline.in` from the
`cmd` option.  A `shutil.copy2` whose source is missing raises, modelled as
`none`. -/
def deploy_fixed (a : Args) (fs : FS) : Option FS :=
  match fsGet (fsRemoveUnder fs (esp_path a.release))
      (kernel_build_path a.release ++ ["bespin"]) with
  | none => none
  | some k1 =>
    match fsGet (fsPut (fsRemoveUnder fs (esp_path a.release))
        (cwd_path ++ ["bespin"]) k1) (kernel_build_path a.release ++ ["bespin"]) with
    | none => none
    | some k2 =>
      match fsGet (fsPut (fsPut (fsRemoveUnder fs (esp_path a.release))
          (cwd_path ++ ["bespin"]) k1) (esp_path a.release ++ ["kernel"]) k2)
          (uefi_build_path a.release ++ ["bootloader.efi"]) with
      | none => none
      | some b =>
        some (fsPut (fsPut (fsPut (fsPut (fsRemoveUnder fs (esp_path a.release))
          (cwd_path ++ ["bespin"]) k1) (esp_path a.release ++ ["kernel"]) k2)
          (esp_path a.release ++ ["EFI", "Boot", "BootX64.efi"]) b)
          (esp_path a.release ++ ["cmdline.in"]) ("./kernel " ++ pyFormatOpt a.cmd))

/-- The `deploy` function of `run.py` on the filesystem model: the fixed part
followed by the user-module deployment loop. -/
def deploy (a : Args) (fs : FS) : Option FS :=
  (deploy_fixed a fs).map (copyMods a)

theorem fsGet_fsPut (fs : FS) (q p : Path) (c : String) :
    fsGet (fsPut fs q c) p = if q = p then some c else fsGet fs p := rfl

theorem isUnder_append_self (d q : Path) : isUnder d (d ++ q) = true := by
  induction d with
  | nil => rfl
  | cons x ds ih => simp [isUnder, ih]

theorem fsGet_cons (e : Path × String) (fs : FS) (p : Path) :
    fsGet (e :: fs) p = if e.1 = p then some e.2 else fsGet fs p := rfl

theorem fsGet_fsRemoveUnder (fs : FS) (d p : Path) :
    fsGet (fsRemoveUnder fs d) p = if isUnder d p then none else fsGet fs p := by
  induction fs with
  | nil => unfold fsRemoveUnder; cases h : isUnder d p <;> simp [fsGet, h]
  | cons e fs ih =>
      unfold fsRemoveUnder at ih ⊢
      rw [List.filter_cons]
      cases he : isUnder d e.1
      · simp only [Bool.not_false, reduceIte]
        rw [fsGet_cons]
        by_cases hep : e.1 = p
        · have hup : isUnder d p = false := by rw [← hep]; exact he
          rw [if_pos hep, hup, if_neg (by simp), fsGet_cons, if_pos hep]
        · rw [if_neg hep, ih, fsGet_cons, if_neg hep]
      · simp only [Bool.not_true]
        rw [if_neg (by simp), ih, fsGet_cons]
        by_cases hep : e.1 = p
        · rw [if_pos hep, if_pos (by rw [← hep]; exact he), if_pos (by rw [← hep]; exact he)]
        · rw [if_neg hep]

theorem ne_of_length_ne {p q : Path} (h : p.length ≠ q.length) : p ≠ q :=
  fun he => h (he ▸ rfl)

theorem esp_child_length (r : Bool) (x : String) :
    (esp_path r ++ [x]).length = 5 := by cases r <;> rfl

theorem user_child_length (r : Bool) (y : String) :
    (user_build_path r ++ [y]).length = 4 := by cases r <;> rfl

theorem cwd_bespin_length : (cwd_path ++ ["bespin"]).length = 2 := rfl

theorem efi_child_length (r : Bool) :
    (esp_path r ++ ["EFI", "Boot", "BootX64.efi"]).length = 7 := by cases r <;> rfl

theorem user_child_ne_esp_child (r r' : Bool) (y x : String) :
    user_build_path r ++ [y] ≠ esp_path r' ++ [x] :=
  ne_of_length_ne (by rw [user_child_length, esp_child_length]; omega)

theorem cwd_bespin_ne_esp_child (r : Bool) (x : String) :
    cwd_path ++ ["bespin"] ≠ esp_path r ++ [x] :=
  ne_of_length_ne (by rw [cwd_bespin_length, esp_child_length]; omega)

theorem efi_ne_esp_child (r r' : Bool) (x : String) :
    esp_path r ++ ["EFI", "Boot", "BootX64.efi"] ≠ esp_path r' ++ [x] :=
  ne_of_length_ne (by rw [efi_child_length, esp_child_length]; omega)

theorem cwd_bespin_ne_user_child (r : Bool) (y : String) :
    cwd_path ++ ["bespin"] ≠ user_build_path r ++ [y] :=
  ne_of_length_ne (by rw [cwd_bespin_length, user_child_length]; omega)

theorem efi_ne_user_child (r r' : Bool) (y : String) :
    esp_path r ++ ["EFI", "Boot", "BootX64.efi"] ≠ user_build_path r' ++ [y] :=
  ne_of_length_ne (by rw [efi_child_length, user_child_length]; omega)

theorem esp_child_inj {r : Bool} {x y : String}
    (h : esp_path r ++ [x] = esp_path r ++ [y]) : x = y := by
  have h' := List.append_cancel_left h
  exact List.singleton_inj.mp h'

theorem isUnder_esp_user_child (r : Bool) (y : String) :
    isUnder (esp_path r) (user_build_path r ++ [y]) = false := by
  cases r <;>
    simp [isUnder, esp_path, uefi_build_path, user_build_path, UEFI_TARGET,
      USER_TARGET, debug_release]

theorem isUnder_esp_esp_child (r : Bool) (x : String) :
    isUnder (esp_path r) (esp_path r ++ [x]) = true :=
  isUnder_append_self (esp_path r) [x]

theorem binName_user_child (r : Bool) (n : String) :
    binName (user_build_path r) (user_build_path r ++ [n]) =
      if strEndsWith n ".bin" then some n else none := by
  cases r <;> simp [binName, user_build_path, debug_release]

theorem binName_esp_child (r : Bool) (x : String) :
    binName (user_build_path r) (esp_path r ++ [x]) = none := by
  cases r <;>
    simp [binName, user_build_path, esp_path, uefi_build_path, UEFI_TARGET,
      USER_TARGET, debug_release]

theorem binName_some {u p : Path} {n : String} (h : binName u p = some n) :
    p = u ++ [n] ∧ strEndsWith n ".bin" = true := by
  unfold binName at h
  by_cases hc : p.take u.length = u
  · rw [if_pos hc] at h
    rcases hd : p.drop u.length with _ | ⟨x, _ | _⟩ <;> rw [hd] at h
    · cases h
    · have h' : (if strEndsWith x ".bin" then some x else none) = some n := h
      by_cases hb : strEndsWith x ".bin"
      · rw [if_pos hb] at h'
        obtain rfl : x = n := Option.some.inj h'
        refine ⟨?_, hb⟩
        rw [← List.take_append_drop u.length p, hc, hd]
      · rw [if_neg hb] at h'; cases h'
    · cases h
  · rw [if_neg hc] at h; cases h

theorem binNames_ends {fs : FS} {u : Path} {n : String}
    (h : n ∈ binNames fs u) : strEndsWith n ".bin" = true := by
  obtain ⟨e, _, he⟩ := List.mem_filterMap.mp h
  exact (binName_some he).2

theorem mem_binNames_of_entry {fs : FS} {u p : Path} {c : String} {n : String}
    (hmem : (p, c) ∈ fs) (hname : binName u p = some n) : n ∈ binNames fs u :=
  List.mem_filterMap.mpr ⟨(p, c), hmem, hname⟩

theorem fsGet_some_mem {fs : FS} {p : Path} {c : String}
    (h : fsGet fs p = some c) : (p, c) ∈ fs := by
  induction fs with
  | nil => cases h
  | cons e fs ih =>
      obtain ⟨q, d⟩ := e
      rw [fsGet_cons] at h
      by_cases hep : q = p
      · rw [if_pos hep] at h
        obtain rfl : d = c := Option.some.inj h
        subst hep
        exact List.mem_cons_self (q, d) fs
      · rw [if_neg hep] at h
        exact List.mem_cons_of_mem (q, d) (ih h)

theorem fsGet_none_not_mem {fs : FS} {p : Path}
    (h : fsGet fs p = none) : ∀ e ∈ fs, e.1 ≠ p := by
  induction fs with
  | nil => intro e he; cases he
  | cons e' fs ih =>
      rw [fsGet_cons] at h
      by_cases hep : e'.1 = p
      · rw [if_pos hep] at h; cases h
      · rw [if_neg hep] at h
        intro e he
        rcases List.mem_cons.mp he with rfl | hmem
        · exact hep
        · exact ih h e hmem

theorem nokey_fsGet_none {fs : FS} {p : Path}
    (h : ∀ e ∈ fs, e.1 ≠ p) : fsGet fs p = none := by
  induction fs with
  | nil => rfl
  | cons e fs ih =>
      rw [fsGet_cons, if_neg (h e (List.mem_cons_self e fs))]
      exact ih (fun e' he' => h e' (List.mem_cons_of_mem e he'))

theorem copyBins_cons (r : Bool) (n : String) (ns : List String) (fs : FS) :
    copyBins r (n :: ns) fs =
      copyBins r ns
        (match fsGet fs (user_build_path r ++ [n]) with
         | some c => fsPut fs (esp_path r ++ [n]) c
         | none => fs) := rfl

theorem copyBins_get_ne (r : Bool) (p : Path)
    (hp : ∀ x : String, p ≠ esp_path r ++ [x]) :
    ∀ (ns : List String) (fs : FS), fsGet (copyBins r ns fs) p = fsGet fs p := by
  intro ns
  induction ns with
  | nil => intro fs; rfl
  | cons n ns ih =>
      intro fs
      rw [copyBins_cons]
      rcases hg : fsGet fs (user_build_path r ++ [n]) with _ | c
      · exact ih fs
      · show fsGet (copyBins r ns (fsPut fs (esp_path r ++ [n]) c)) p = fsGet fs p
        rw [ih, fsGet_fsPut, if_neg (fun he => hp n he.symm)]

theorem copyBins_get_other (r : Bool) (m : String) :
    ∀ (ns : List String) (fs : FS), (∀ n ∈ ns, n ≠ m) →
      fsGet (copyBins r ns fs) (esp_path r ++ [m]) = fsGet fs (esp_path r ++ [m]) := by
  intro ns
  induction ns with
  | nil => intro fs _; rfl
  | cons n ns ih =>
      intro fs hne
      rw [copyBins_cons]
      rcases hg : fsGet fs (user_build_path r ++ [n]) with _ | c
      · exact ih fs (fun x hx => hne x (List.mem_cons_of_mem n hx))
      · show fsGet (copyBins r ns (fsPut fs (esp_path r ++ [n]) c)) (esp_path r ++ [m])
            = fsGet fs (esp_path r ++ [m])
        rw [ih _ (fun x hx => hne x (List.mem_cons_of_mem n hx)),
          fsGet_fsPut,
          if_neg (fun he => hne n (List.mem_cons_self n ns) (esp_child_inj he))]

theorem copyBins_keep (r : Bool) (name c : String) :
    ∀ (ns : List String) (fs : FS),
      fsGet fs (esp_path r ++ [name]) = some c →
      fsGet fs (user_build_path r ++ [name]) = some c →
      fsGet (copyBins r ns fs) (esp_path r ++ [name]) = some c := by
  intro ns
  induction ns with
  | nil => intro fs h1 _; exact h1
  | cons n ns ih =>
      intro fs h1 h2
      rw [copyBins_cons]
      rcases hg : fsGet fs (user_build_path r ++ [n]) with _ | cn
      · exact ih fs h1 h2
      · show fsGet (copyBins r ns (fsPut fs (esp_path r ++ [n]) cn))
            (esp_path r ++ [name]) = some c
        have h2' : fsGet (fsPut fs (esp_path r ++ [n]) cn)
            (user_build_path r ++ [name]) = some c := by
          rw [fsGet_fsPut, if_neg (fun he => user_child_ne_esp_child r r name n he.symm)]
          exact h2
        have h1' : fsGet (fsPut fs (esp_path r ++ [n]) cn)
            (esp_path r ++ [name]) = some c := by
          rw [fsGet_fsPut]
          by_cases hnn : n = name
          · subst hnn
            have hcc : cn = c := Option.some.inj (hg.symm.trans h2)
            rw [if_pos rfl, hcc]
          · rw [if_neg (fun he => hnn (esp_child_inj he))]
            exact h1
        exact ih _ h1' h2'

theorem copyBins_hit (r : Bool) (name c : String) :
    ∀ (ns : List String) (fs : FS), name ∈ ns →
      fsGet fs (user_build_path r ++ [name]) = some c →
      fsGet (copyBins r ns fs) (esp_path r ++ [name]) = some c := by
  intro ns
  induction ns with
  | nil => intro fs hm; cases hm
  | cons n ns ih =>
      intro fs hm h2
      rw [copyBins_cons]
      rcases List.mem_cons.mp hm with rfl | hmem
      · rw [h2]
        show fsGet (copyBins r ns (fsPut fs (esp_path r ++ [name]) c))
            (esp_path r ++ [name]) = some c
        have h1' : fsGet (fsPut fs (esp_path r ++ [name]) c)
            (esp_path r ++ [name]) = some c := by rw [fsGet_fsPut, if_pos rfl]
        have h2' : fsGet (fsPut fs (esp_path r ++ [name]) c)
            (user_build_path r ++ [name]) = some c := by
          rw [fsGet_fsPut, if_neg (fun he => user_child_ne_esp_child r r name name he.symm)]
          exact h2
        exact copyBins_keep r name c ns _ h1' h2'
      · rcases hg : fsGet fs (user_build_path r ++ [n]) with _ | cn
        · exact ih fs hmem h2
        · show fsGet (copyBins r ns (fsPut fs (esp_path r ++ [n]) cn))
              (esp_path r ++ [name]) = some c
          refine ih _ hmem ?_
          rw [fsGet_fsPut, if_neg (fun he => user_child_ne_esp_child r r name n he.symm)]
          exact h2

theorem copyBins_mem {r : Bool} :
    ∀ {ns : List String} {fs : FS} {e : Path × String}, e ∈ copyBins r ns fs →
      e ∈ fs ∨ ∃ x c, e = (esp_path r ++ [x], c) := by
  intro ns
  induction ns with
  | nil => intro fs e he; exact Or.inl he
  | cons n ns ih =>
      intro fs e he
      rw [copyBins_cons] at he
      rcases hg : fsGet fs (user_build_path r ++ [n]) with _ | c
      · rw [hg] at he; exact ih he
      · rw [hg] at he
        replace he : e ∈ copyBins r ns (fsPut fs (esp_path r ++ [n]) c) := he
        rcases ih he with hin | hshape
        · rcases List.mem_cons.mp hin with rfl | hin'
          · exact Or.inr ⟨n, c, rfl⟩
          · exact Or.inl hin'
        · exact Or.inr hshape

theorem copyModule_cases (a : Args) (fs : FS) (m : String) :
    (fsGet fs (user_build_path a.release ++ [m]) = none ∧ copyModule a fs m = fs) ∨
    (∃ c, fsGet fs (user_build_path a.release ++ [m]) = some c ∧ m ≠ "rkapps" ∧
      copyModule a fs m = fsPut fs (esp_path a.release ++ [m]) c) ∨
    (m = "rkapps" ∧ (∃ c, fsGet fs (user_build_path a.release ++ [m]) = some c) ∧
      copyModule a fs m =
        copyBins a.release (binNames fs (user_build_path a.release)) fs) := by
  unfold copyModule
  rcases hg : fsGet fs (user_build_path a.release ++ [m]) with _ | c
  · exact Or.inl ⟨rfl, rfl⟩
  · by_cases hr : m ≠ "rkapps"
    · refine Or.inr (Or.inl ⟨c, rfl, hr, ?_⟩)
      show (if m ≠ "rkapps" then fsPut fs (esp_path a.release ++ [m]) c
        else copyBins a.release (binNames fs (user_build_path a.release)) fs)
          = fsPut fs (esp_path a.release ++ [m]) c
      rw [if_pos hr]
    · refine Or.inr (Or.inr ⟨not_not.mp hr, ⟨c, rfl⟩, ?_⟩)
      show (if m ≠ "rkapps" then fsPut fs (esp_path a.release ++ [m]) c
        else copyBins a.release (binNames fs (user_build_path a.release)) fs)
          = copyBins a.release (binNames fs (user_build_path a.release)) fs
      rw [if_neg hr]

theorem copyModule_get_ne (a : Args) (m : String) (p : Path)
    (hp : ∀ x : String, p ≠ esp_path a.release ++ [x]) (fs : FS) :
    fsGet (copyModule a fs m) p = fsGet fs p := by
  rcases copyModule_cases a fs m with ⟨_, he⟩ | ⟨c, _, _, he⟩ | ⟨_, _, he⟩ <;> rw [he]
  · rw [fsGet_fsPut, if_neg (fun h => hp m h.symm)]
  · exact copyBins_get_ne a.release p hp _ fs

theorem copyModule_mem {a : Args} {fs : FS} {m : String} {e : Path × String}
    (he : e ∈ copyModule a fs m) :
    e ∈ fs ∨ ∃ x c, e = (esp_path a.release ++ [x], c) := by
  rcases copyModule_cases a fs m with ⟨_, hc⟩ | ⟨c, _, _, hc⟩ | ⟨_, _, hc⟩ <;> rw [hc] at he
  · exact Or.inl he
  · rcases List.mem_cons.mp he with rfl | hin
    · exact Or.inr ⟨m, c, rfl⟩
    · exact Or.inl hin
  · exact copyBins_mem he

theorem copyMods_keep (a : Args) (name c : String) :
    ∀ (mods : List String) (fs : FS),
      fsGet fs (esp_path a.release ++ [name]) = some c →
      fsGet fs (user_build_path a.release ++ [name]) = some c →
      fsGet (mods.foldl (copyModule a) fs) (esp_path a.release ++ [name]) = some c := by
  intro mods
  induction mods with
  | nil => intro fs h1 _; exact h1
  | cons m mods ih =>
      intro fs h1 h2
      rw [List.foldl_cons]
      have h2' : fsGet (copyModule a fs m) (user_build_path a.release ++ [name]) = some c := by
        rw [copyModule_get_ne a m _
          (fun x => user_child_ne_esp_child a.release a.release name x)]
        exact h2
      have h1' : fsGet (copyModule a fs m) (esp_path a.release ++ [name]) = some c := by
        rcases copyModule_cases a fs m with ⟨_, hc⟩ | ⟨cm, hgm, _, hc⟩ | ⟨_, _, hc⟩ <;> rw [hc]
        · exact h1
        · rw [fsGet_fsPut]
          by_cases hmn : m = name
          · subst hmn
            have hcc : cm = c := Option.some.inj (hgm.symm.trans h2)
            rw [if_pos rfl, hcc]
          · rw [if_neg (fun he => hmn (esp_child_inj he))]; exact h1
        · exact copyBins_keep a.release name c _ fs h1 h2
      exact ih _ h1' h2'

theorem copyMods_rkapps_sets (a : Args) (name c : String)
    (hbin : strEndsWith name ".bin" = true) :
    ∀ (mods : List String) (fs : FS), "rkapps" ∈ mods →
      fsGet fs (user_build_path a.release ++ [name]) = some c →
      (∃ w, fsGet fs (user_build_path a.release ++ ["rkapps"]) = some w) →
      fsGet (mods.foldl (copyModule a) fs) (esp_path a.release ++ [name]) = some c := by
  intro mods
  induction mods with
  | nil => intro fs hm; cases hm
  | cons m mods ih =>
      intro fs hm h2 hsent
      rw [List.foldl_cons]
      rcases List.mem_cons.mp hm with rfl | hmem
      · obtain ⟨w, hw⟩ := hsent
        have hstep : copyModule a fs "rkapps" =
            copyBins a.release (binNames fs (user_build_path a.release)) fs := by
          rcases copyModule_cases a fs "rkapps" with ⟨hg0, _⟩ | ⟨cm, _, hne, _⟩ | ⟨_, _, hc⟩
          · rw [hg0] at hw; cases hw
          · exact absurd rfl hne
          · exact hc
        rw [hstep]
        have hnb : binName (user_build_path a.release)
            (user_build_path a.release ++ [name]) = some name := by
          rw [binName_user_child, if_pos hbin]
        have hnamemem : name ∈ binNames fs (user_build_path a.release) :=
          mem_binNames_of_entry (fsGet_some_mem h2) hnb
        have hafter := copyBins_hit a.release name c _ fs hnamemem h2
        have huser : fsGet (copyBins a.release (binNames fs (user_build_path a.release)) fs)
            (user_build_path a.release ++ [name]) = some c := by
          rw [copyBins_get_ne a.release _
            (fun x => user_child_ne_esp_child a.release a.release name x)]
          exact h2
        exact copyMods_keep a name c mods _ hafter huser
      · have h2' : fsGet (copyModule a fs m) (user_build_path a.release ++ [name]) = some c := by
          rw [copyModule_get_ne a m _
            (fun x => user_child_ne_esp_child a.release a.release name x)]
          exact h2
        obtain ⟨w, hw⟩ := hsent
        have hsent' : ∃ w, fsGet (copyModule a fs m)
            (user_build_path a.release ++ ["rkapps"]) = some w := by
          refine ⟨w, ?_⟩
          rw [copyModule_get_ne a m _
            (fun x => user_child_ne_esp_child a.release a.release "rkapps" x)]
          exact hw
        exact ih _ hmem h2' hsent'

theorem copyMods_nokey (a : Args) (name : String) :
    ∀ (mods : List String) (fs : FS),
      fsGet fs (esp_path a.release ++ [name]) = none →
      (∀ e ∈ fs, e.1 ≠ user_build_path a.release ++ [name]) →
      fsGet (mods.foldl (copyModule a) fs) (esp_path a.release ++ [name]) = none := by
  intro mods
  induction mods with
  | nil => intro fs h1 _; exact h1
  | cons m mods ih =>
      intro fs h1 hnk
      rw [List.foldl_cons]
      have hnk' : ∀ e ∈ copyModule a fs m, e.1 ≠ user_build_path a.release ++ [name] := by
        intro e he
        rcases copyModule_mem he with hin | ⟨x, cx, rfl⟩
        · exact hnk e hin
        · exact fun hcontra => user_child_ne_esp_child a.release a.release name x hcontra.symm
      have h1' : fsGet (copyModule a fs m) (esp_path a.release ++ [name]) = none := by
        rcases copyModule_cases a fs m with ⟨_, hc⟩ | ⟨cm, hgm, _, hc⟩ | ⟨_, _, hc⟩ <;> rw [hc]
        · exact h1
        · rw [fsGet_fsPut]
          by_cases hmn : m = name
          · subst hmn
            exact absurd rfl (hnk _ (fsGet_some_mem hgm))
          · rw [if_neg (fun he => hmn (esp_child_inj he))]; exact h1
        · have hall : ∀ n ∈ binNames fs (user_build_path a.release), n ≠ name := by
            intro n hn hcontra
            subst hcontra
            obtain ⟨e, hef, hbe⟩ := List.mem_filterMap.mp hn
            exact hnk e hef (binName_some hbe).1
          rw [copyBins_get_other a.release name _ fs hall]
          exact h1
      exact ih _ h1' hnk'

theorem copyMods_skip (a : Args) (m : String)
    (hbin : strEndsWith m ".bin" = false) :
    ∀ (mods : List String) (fs : FS), (∀ mod ∈ mods, mod ≠ m) →
      fsGet (mods.foldl (copyModule a) fs) (esp_path a.release ++ [m])
        = fsGet fs (esp_path a.release ++ [m]) := by
  intro mods
  induction mods with
  | nil => intro fs _; rfl
  | cons m0 mods ih =>
      intro fs hne
      rw [List.foldl_cons, ih _ (fun x hx => hne x (List.mem_cons_of_mem m0 hx))]
      rcases copyModule_cases a fs m0 with ⟨_, hc⟩ | ⟨cm, _, _, hc⟩ | ⟨_, _, hc⟩
      · rw [hc]
      · rw [hc, fsGet_fsPut,
          if_neg (fun he => hne m0 (List.mem_cons_self m0 mods) (esp_child_inj he))]
      · have hall : ∀ n ∈ binNames fs (user_build_path a.release), n ≠ m := by
          intro n hn hnm
          rw [hnm] at hn
          have hb2 := binNames_ends hn
          rw [hb2] at hbin
          exact absurd hbin (by decide)
        rw [hc, copyBins_get_other a.release m _ fs hall]

theorem deploy_fixed_inv {a : Args} {fs fs4 : FS}
    (h : deploy_fixed a fs = some fs4) :
    ∃ k1 k2 b : String,
      fs4 =
        fsPut (fsPut (fsPut (fsPut (fsRemoveUnder fs (esp_path a.release))
          (cwd_path ++ ["bespin"]) k1)
          (esp_path a.release ++ ["kernel"]) k2)
          (esp_path a.release ++ ["EFI", "Boot", "BootX64.efi"]) b)
          (esp_path a.release ++ ["cmdline.in"]) ("./kernel " ++ pyFormatOpt a.cmd) := by
  unfold deploy_fixed at h
  rcases hk1 : fsGet (fsRemoveUnder fs (esp_path a.release))
      (kernel_build_path a.release ++ ["bespin"]) with _ | k1 <;> rw [hk1] at h
  · cases h
  · replace h :
        (match fsGet (fsPut (fsRemoveUnder fs (esp_path a.release))
            (cwd_path ++ ["bespin"]) k1) (kernel_build_path a.release ++ ["bespin"]) with
         | none => (none : Option FS)
         | some k2 =>
           match fsGet (fsPut (fsPut (fsRemoveUnder fs (esp_path a.release))
               (cwd_path ++ ["bespin"]) k1) (esp_path a.release ++ ["kernel"]) k2)
               (uefi_build_path a.release ++ ["bootloader.efi"]) with
           | none => none
           | some b =>
             some (fsPut (fsPut (fsPut (fsPut (fsRemoveUnder fs (esp_path a.release))
               (cwd_path ++ ["bespin"]) k1) (esp_path a.release ++ ["kernel"]) k2)
               (esp_path a.release ++ ["EFI", "Boot", "BootX64.efi"]) b)
               (esp_path a.release ++ ["cmdline.in"])
               ("./kernel " ++ pyFormatOpt a.cmd))) = some fs4 := h
    rcases hk2 : fsGet (fsPut (fsRemoveUnder fs (esp_path a.release))
        (cwd_path ++ ["bespin"]) k1) (kernel_build_path a.release ++ ["bespin"])
      with _ | k2 <;> rw [hk2] at h
    · cases h
    · replace h :
          (match fsGet (fsPut (fsPut (fsRemoveUnder fs (esp_path a.release))
              (cwd_path ++ ["bespin"]) k1) (esp_path a.release ++ ["kernel"]) k2)
              (uefi_build_path a.release ++ ["bootloader.efi"]) with
           | none => (none : Option FS)
           | some b =>
             some (fsPut (fsPut (fsPut (fsPut (fsRemoveUnder fs (esp_path a.release))
               (cwd_path ++ ["bespin"]) k1) (esp_path a.release ++ ["kernel"]) k2)
               (esp_path a.release ++ ["EFI", "Boot", "BootX64.efi"]) b)
               (esp_path a.release ++ ["cmdline.in"])
               ("./kernel " ++ pyFormatOpt a.cmd))) = some fs4 := h
      rcases hb : fsGet (fsPut (fsPut (fsRemoveUnder fs (esp_path a.release))
          (cwd_path ++ ["bespin"]) k1) (esp_path a.release ++ ["kernel"]) k2)
          (uefi_build_path a.release ++ ["bootloader.efi"]) with _ | b <;> rw [hb] at h
      · cases h
      · exact ⟨k1, k2, b, (Option.some.inj h).symm⟩

theorem deploy_fixed_get_user {a : Args} {fs fs4 : FS}
    (h : deploy_fixed a fs = some fs4) (y : String) :
    fsGet fs4 (user_build_path a.release ++ [y]) =
      fsGet fs (user_build_path a.release ++ [y]) := by
  obtain ⟨k1, k2, b, rfl⟩ := deploy_fixed_inv h
  rw [fsGet_fsPut,
    if_neg (fun he => user_child_ne_esp_child a.release a.release y "cmdline.in" he.symm),
    fsGet_fsPut, if_neg (fun he => efi_ne_user_child a.release a.release y he),
    fsGet_fsPut,
    if_neg (fun he => user_child_ne_esp_child a.release a.release y "kernel" he.symm),
    fsGet_fsPut, if_neg (fun he => cwd_bespin_ne_user_child a.release y he),
    fsGet_fsRemoveUnder, isUnder_esp_user_child, if_neg (by simp)]

theorem deploy_fixed_esp_child {a : Args} {fs fs4 : FS}
    (h : deploy_fixed a fs = some fs4) {x : String}
    (hx1 : x ≠ "kernel") (hx2 : x ≠ "cmdline.in") :
    fsGet fs4 (esp_path a.release ++ [x]) = none := by
  obtain ⟨k1, k2, b, rfl⟩ := deploy_fixed_inv h
  rw [fsGet_fsPut, if_neg (fun he => hx2 (esp_child_inj he).symm),
    fsGet_fsPut, if_neg (fun he => efi_ne_esp_child a.release a.release x he),
    fsGet_fsPut, if_neg (fun he => hx1 (esp_child_inj he).symm),
    fsGet_fsPut, if_neg (fun he => cwd_bespin_ne_esp_child a.release x he),
    fsGet_fsRemoveUnder, isUnder_esp_esp_child, if_pos rfl]

theorem deploy_fixed_cmdline {a : Args} {fs fs4 : FS}
    (h : deploy_fixed a fs = some fs4) :
    fsGet fs4 (esp_path a.release ++ ["cmdline.in"]) =
      some ("./kernel " ++ pyFormatOpt a.cmd) := by
  obtain ⟨k1, k2, b, rfl⟩ := deploy_fixed_inv h
  rw [fsGet_fsPut, if_pos rfl]

theorem deploy_fixed_nokey {a : Args} {fs fs4 : FS}
    (h : deploy_fixed a fs = some fs4) {y : String}
    (hfs : ∀ e ∈ fs, e.1 ≠ user_build_path a.release ++ [y]) :
    ∀ e ∈ fs4, e.1 ≠ user_build_path a.release ++ [y] := by
  obtain ⟨k1, k2, b, rfl⟩ := deploy_fixed_inv h
  intro e he
  simp only [fsPut] at he
  rcases List.mem_cons.mp he with rfl | he1
  · exact fun hc => user_child_ne_esp_child a.release a.release y "cmdline.in" hc.symm
  rcases List.mem_cons.mp he1 with rfl | he2
  · exact fun hc => efi_ne_user_child a.release a.release y hc
  rcases List.mem_cons.mp he2 with rfl | he3
  · exact fun hc => user_child_ne_esp_child a.release a.release y "kernel" hc.symm
  rcases List.mem_cons.mp he3 with rfl | he4
  · exact fun hc => cwd_bespin_ne_user_child a.release y hc
  exact hfs e (List.mem_filter.mp he4).1

/-- C5: deployment always reconstructs the ESP tree from scratch: after two
successive deployments, the second deployment's ESP root holds no file for a
module name that is in the first deployment's module list but not in the
second's (and is not one of the fixed artifact names or a `.bin` fan-out
name); stale artifacts never survive the reset. -/
theorem c5_clean_reconstruction (a1 a2 : Args) (fs fs1 fs2 : FS) (m : String)
    (_h1 : deploy a1 fs = some fs1) (h2 : deploy a2 fs1 = some fs2)
    (_hm1 : m ∈ a1.mods) (hm2 : m ∉ a2.mods)
    (hk : m ≠ "kernel") (hc : m ≠ "cmdline.in")
    (hb : strEndsWith m ".bin" = false) :
    fsGet fs2 (esp_path a2.release ++ [m]) = none := by
  unfold deploy at h2
  rcases hf : deploy_fixed a2 fs1 with _ | fs4 <;> rw [hf] at h2
  · cases h2
  · obtain rfl : copyMods a2 fs4 = fs2 := Option.some.inj h2
    have hesp : fsGet fs4 (esp_path a2.release ++ [m]) = none :=
      deploy_fixed_esp_child hf hk hc
    have hskip := copyMods_skip a2 m hb a2.mods fs4 (fun x hx hxm => hm2 (hxm ▸ hx))
    exact hskip.trans hesp

/-- C7: the command-line descriptor written during deployment is exactly the
fixed kernel invocation path, one space, and the verbatim user-supplied
command-line string. -/
theorem c7_cmdline_verbatim (a : Args) (fs fs' : FS) (s : String)
    (h : deploy a fs = some fs')
    (hcmd : a.cmd = some s)
    (hmods : "cmdline.in" ∉ a.mods) :
    fsGet fs' (esp_path a.release ++ ["cmdline.in"]) = some ("./kernel " ++ s) := by
  unfold deploy at h
  rcases hf : deploy_fixed a fs with _ | fs4 <;> rw [hf] at h
  · cases h
  · obtain rfl : copyMods a fs4 = fs' := Option.some.inj h
    have hcm := deploy_fixed_cmdline hf
    rw [hcmd] at hcm
    have hskip := copyMods_skip a "cmdline.in" (by decide) a.mods fs4
      (fun x hx hxm => hmods (hxm ▸ hx))
    exact hskip.trans hcm

/-- C6 (amended): when `rkapps` is selected and a file named `rkapps` exists
in the user build directory (the per-module is_file gate), deployment copies
to the ESP root exactly the `.bin` files of the user build directory (0, 1 or
N of them): for every `.bin` name, the ESP root holds precisely the build
directory's content for that name. -/
theorem c6_rkapps_bin_fanout (a : Args) (fs fs' : FS) (name w : String)
    (h : deploy a fs = some fs')
    (hrk : "rkapps" ∈ a.mods)
    (hsent : fsGet fs (user_build_path a.release ++ ["rkapps"]) = some w)
    (hbin : strEndsWith name ".bin" = true) :
    fsGet fs' (esp_path a.release ++ [name]) =
      fsGet fs (user_build_path a.release ++ [name]) := by
  unfold deploy at h
  rcases hf : deploy_fixed a fs with _ | fs4 <;> rw [hf] at h
  · cases h
  · obtain rfl : copyMods a fs4 = fs' := Option.some.inj h
    have hnk1 : name ≠ "kernel" := fun he => by
      rw [he] at hbin; exact absurd hbin (by decide)
    have hnk2 : name ≠ "cmdline.in" := fun he => by
      rw [he] at hbin; exact absurd hbin (by decide)
    rcases hv : fsGet fs (user_build_path a.release ++ [name]) with _ | c
    · have hesp : fsGet fs4 (esp_path a.release ++ [name]) = none :=
        deploy_fixed_esp_child hf hnk1 hnk2
      have hnk4 := deploy_fixed_nokey hf (fsGet_none_not_mem hv)
      exact copyMods_nokey a name a.mods fs4 hesp hnk4
    · have hu4 : fsGet fs4 (user_build_path a.release ++ [name]) = some c := by
        rw [deploy_fixed_get_user hf name]; exact hv
      have hs4 : ∃ w', fsGet fs4 (user_build_path a.release ++ ["rkapps"]) = some w' :=
        ⟨w, by rw [deploy_fixed_get_user hf "rkapps"]; exact hsent⟩
      exact copyMods_rkapps_sets a name c hbin a.mods fs4 hrk hu4 hs4

/-- Concrete two-deployment scenario: first deploys module `foo`, second the
default module list. -/
def wArgs1 : Args := { defaultArgs with mods := ["foo"] }

/-- Second deployment configuration of the C5 scenario. -/
def wArgs2 : Args := defaultArgs

/-- Build outputs for the C5 scenario: kernel, bootloader and the `foo`
module binary. -/
def wFS0 : FS :=
  [(kernel_build_path false ++ ["bespin"], "K"),
   (uefi_build_path false ++ ["bootloader.efi"], "B"),
   (user_build_path false ++ ["foo"], "FOO")]

/-- Result of the first deployment of the C5 scenario. -/
def wFS1 : FS := (deploy wArgs1 wFS0).getD []

/-- Result of the second deployment of the C5 scenario. -/
def wFS2 : FS := (deploy wArgs2 wFS1).getD []

/-- Closed instance of `c5_clean_reconstruction`: module `foo` deployed first
and dropped second leaves no `esp/foo` in the second tree. -/
theorem c5_clean_reconstruction_witness :
    fsGet wFS2 (esp_path false ++ ["foo"]) = none :=
  c5_clean_reconstruction wArgs1 wArgs2 wFS0 wFS1 wFS2 "foo" (by decide) (by decide)
    (by decide) (by decide) (by decide) (by decide) (by decide)

/-- Deployment configuration with a kernel command line supplied. -/
def wArgs7 : Args := { defaultArgs with cmd := some "log=info init=hello", mods := [] }

/-- Build outputs for the C7 scenario. -/
def wFS7 : FS :=
  [(kernel_build_path false ++ ["bespin"], "K"),
   (uefi_build_path false ++ ["bootloader.efi"], "B")]

/-- Result of the C7 deployment. -/
def wFS7r : FS := (deploy wArgs7 wFS7).getD []

/-- Closed instance of `c7_cmdline_verbatim`. -/
theorem c7_cmdline_verbatim_witness :
    fsGet wFS7r (esp_path false ++ ["cmdline.in"]) =
      some ("./kernel " ++ "log=info init=hello") :=
  c7_cmdline_verbatim wArgs7 wFS7 wFS7r "log=info init=hello" (by decide)
    (by decide) (by decide)

/-- Deployment configuration selecting the multi-binary module. -/
def wArgs6 : Args := { defaultArgs with mods := ["rkapps"] }

/-- Build outputs for the C6 witness: the `rkapps` sentinel file is present
together with one `.bin` binary. -/
def wFS6 : FS :=
  [(kernel_build_path false ++ ["bespin"], "K"),
   (uefi_build_path false ++ ["bootloader.efi"], "B"),
   (user_build_path false ++ ["rkapps"], "R"),
   (user_build_path false ++ ["foo.bin"], "FOO")]

/-- Result of the C6 witness deployment. -/
def wFS6r : FS := (deploy wArgs6 wFS6).getD []

/-- Closed instance of `c6_rkapps_bin_fanout`: the `.bin` binary reaches the
ESP root. -/
theorem c6_rkapps_bin_fanout_witness :
    fsGet wFS6r (esp_path false ++ ["foo.bin"]) =
      fsGet wFS6 (user_build_path false ++ ["foo.bin"]) :=
  c6_rkapps_bin_fanout wArgs6 wFS6 wFS6r "foo.bin" "R" (by decide) (by decide)
    (by decide) (by decide)

/-- Build outputs for the C6 counterexample: a `.bin` binary is present but
no file named `rkapps` exists in the user build directory. -/
def xFS6 : FS :=
  [(kernel_build_path false ++ ["bespin"], "K"),
   (uefi_build_path false ++ ["bootloader.efi"], "B"),
   (user_build_path false ++ ["foo.bin"], "FOO")]

/-- Result of the C6 counterexample deployment. -/
def xFS6r : FS := (deploy wArgs6 xFS6).getD []

/-- C6 counterexample: with `rkapps` selected, a `.bin` file present in the
build-output directory, and deployment succeeding, the `.bin` file is NOT
copied to the ESP root, because the loop's is_file gate finds no file named
`rkapps` and skips the module entirely; the set of `.bin` files (here of
size 1) is not copied, contradicting the claim. -/
theorem c6_counterexample :
    "rkapps" ∈ wArgs6.mods ∧
    strEndsWith "foo.bin" ".bin" = true ∧
    fsGet xFS6 (user_build_path false ++ ["foo.bin"]) = some "FOO" ∧
    deploy wArgs6 xFS6 = some xFS6r ∧
    fsGet xFS6r (esp_path false ++ ["foo.bin"]) = none := by
  decide

/-- The unconditional part of `qemu_default_args` (run.py:214-239), in source
order; `bootPath` and `espStr` stand for the absolute `BOOTLOADER_PATH` and
ESP directory strings spliced in by `format`. -/
def qemu_fixed_args (bootPath espStr : String) : List String :=
  ["-no-reboot", "-enable-kvm",
   "-cpu", "host,migratable=no,+invtsc,+tsc,+x2apic,+fsgsbase",
   "-display", "none", "-serial", "stdio",
   "-drive", "if=pflash,format=raw,file=" ++ (bootPath ++ "/OVMF_CODE.fd,readonly=on"),
   "-drive", "if=pflash,format=raw,file=" ++ (bootPath ++ "/OVMF_VARS.fd,readonly=on"),
   "-device", "ahci,id=ahci,multifunction=on",
   "-drive", "if=none,format=raw,file=fat:rw:" ++ (espStr ++ ",id=esp"),
   "-device", "ide-drive,bus=ahci.0,drive=esp",
   "-device", "isa-debug-exit,iobase=0xf4,iosize=0x04",
   "-net", "nic,model=e1000,netdev=n0",
   "-netdev", "tap,id=n0,script=no,ifname=tap0"]

/-- `qemu_default_args` as assembled by `run_qemu` (run.py:214-247): the fixed
arguments, the optional debug and monitor flags, and, only when no settings
override is supplied (Python truthiness), the default memory size. -/
def qemu_default_args (bootPath espStr : String) (a : Args) : List String :=
  qemu_fixed_args bootPath espStr ++
    (if a.qemu_debug_cpu then ["-d", "int,cpu_reset"] else []) ++
    (if a.qemu_monitor then ["-monitor", "telnet:127.0.0.1:55555,server,nowait"] else []) ++
    (if !(pyTruthyS a.qemu_settings) then ["-m", "1024"] else [])

/-- `qemu_args` (run.py:249-251): a copy of the defaults with the
whitespace-tokenized settings string appended when supplied. -/
def qemu_args (bootPath espStr : String) (a : Args) : List String :=
  qemu_default_args bootPath espStr a ++
    (if pyTruthyS a.qemu_settings then pySplitWs (a.qemu_settings.getD "") else [])

theorem append_str_ne (p q t : String) (h : t.length < p.length) : p ++ q ≠ t := by
  intro he
  have hl := congrArg String.length he
  rw [String.length_append] at hl
  omega

theorem m_not_in_qemu_fixed (bp ep : String) : "-m" ∉ qemu_fixed_args bp ep := by
  intro h
  simp only [qemu_fixed_args, List.mem_cons, List.not_mem_nil, or_false] at h
  rcases h with h|h|h|h|h|h|h|h|h|h|h|h|h|h|h|h|h|h|h|h|h|h
  all_goals first
    | exact absurd h (by decide)
    | exact append_str_ne _ _ "-m" (by decide) h.symm

theorem not_mem_optList {x : String} {b : Bool} {l : List String}
    (hx : x ∉ l) : x ∉ (if b then l else []) := by
  cases b <;> simp [hx]

/-- C8: the free-form settings override and the default memory flag are
mutually exclusive in the emulator argument vector: a supplied (truthy)
settings string is whitespace-tokenized and appended after the default
arguments, which then contain no `-m` flag at all; with no settings string,
the argument vector is exactly the defaults, which end in `-m 1024`. -/
theorem c8_settings_memory_exclusive (bootPath espStr : String) (a : Args) :
    (pyTruthyS a.qemu_settings = true →
      qemu_args bootPath espStr a =
        qemu_default_args bootPath espStr a ++ pySplitWs (a.qemu_settings.getD "") ∧
      qemu_default_args bootPath espStr a =
        qemu_fixed_args bootPath espStr ++
          (if a.qemu_debug_cpu then ["-d", "int,cpu_reset"] else []) ++
          (if a.qemu_monitor then ["-monitor", "telnet:127.0.0.1:55555,server,nowait"] else []) ∧
      "-m" ∉ qemu_default_args bootPath espStr a) ∧
    (pyTruthyS a.qemu_settings = false →
      qemu_args bootPath espStr a = qemu_default_args bootPath espStr a ∧
      qemu_default_args bootPath espStr a =
        qemu_fixed_args bootPath espStr ++
          (if a.qemu_debug_cpu then ["-d", "int,cpu_reset"] else []) ++
          (if a.qemu_monitor then ["-monitor", "telnet:127.0.0.1:55555,server,nowait"] else []) ++
          ["-m", "1024"]) := by
  constructor
  · intro hq
    have h0 : qemu_default_args bootPath espStr a =
        qemu_fixed_args bootPath espStr ++
          (if a.qemu_debug_cpu then ["-d", "int,cpu_reset"] else []) ++
          (if a.qemu_monitor then ["-monitor", "telnet:127.0.0.1:55555,server,nowait"] else []) := by
      unfold qemu_default_args
      rw [hq]
      rw [show (if ((!true) : Bool) = true then ["-m", "1024"] else ([] : List String))
          = ([] : List String) from rfl, List.append_nil]
    refine ⟨?_, h0, ?_⟩
    · unfold qemu_args
      rw [hq, if_pos rfl]
    · intro hmem
      rw [h0] at hmem
      rcases List.mem_append.mp hmem with hmem' | hmem'
      · rcases List.mem_append.mp hmem' with hmem'' | hmem''
        · exact m_not_in_qemu_fixed bootPath espStr hmem''
        · exact not_mem_optList (by decide) hmem''
      · exact not_mem_optList (by decide) hmem'
  · intro hq
    constructor
    · unfold qemu_args
      rw [hq, if_neg (by decide), List.append_nil]
    · unfold qemu_default_args
      rw [hq]
      rw [show (if ((!false) : Bool) = true then ["-m", "1024"] else ([] : List String))
          = ["-m", "1024"] from rfl]

/-- Configuration with a settings override for the C8 witness. -/
def wArgs8a : Args := { defaultArgs with qemu_settings := some "-m 2048 -smp 2" }

/-- Closed instance of `c8_settings_memory_exclusive`, exercising both the
override case and the default-memory case. -/
theorem c8_settings_memory_exclusive_witness :
    (qemu_args "BP" "ESP" wArgs8a =
      qemu_default_args "BP" "ESP" wArgs8a ++ pySplitWs "-m 2048 -smp 2") ∧
    "-m" ∉ qemu_default_args "BP" "ESP" wArgs8a ∧
    qemu_args "BP" "ESP" defaultArgs = qemu_default_args "BP" "ESP" defaultArgs ∧
    qemu_default_args "BP" "ESP" defaultArgs =
      qemu_fixed_args "BP" "ESP" ++ [] ++ [] ++ ["-m", "1024"] :=
  ⟨((c8_settings_memory_exclusive "BP" "ESP" wArgs8a).1 (by decide)).1,
   ((c8_settings_memory_exclusive "BP" "ESP" wArgs8a).1 (by decide)).2.2,
   ((c8_settings_memory_exclusive "BP" "ESP" defaultArgs).2 (by decide)).1,
   ((c8_settings_memory_exclusive "BP" "ESP" defaultArgs).2 (by decide)).2⟩

end RunPy
